import Mathlib

/-!
A verification development for the external-runtime module of PyExecJS
(`execjs/_external_runtime.py`).  The Python code is shallowly embedded:
Python strings are modelled as lists of Unicode scalar values (`Str`),
stateful operations (the file system in tempfile mode, the mutable fields of
`ExternalRuntime`) are modelled by explicit state passing, process spawning
is modelled by an oracle function supplied as a parameter, and fallible code
returns `Option`/`Except`.  JSON numbers are modelled as integers
(fractional literals are outside the embedding); unpaired surrogate escapes
are rejected by the embedded JSON reader, which Lean's `Char` cannot
represent.
-/

/-- Python strings, modelled as lists of Unicode scalar values. -/
abbrev Str := List Char

/-- Convenience conversion from a Lean string literal. -/
def str (s : String) : Str := s.data

/-- The line-boundary characters of Python's `str.splitlines`
(CR and LF plus vertical tab, form feed, the three information separators
`\x1c`-`\x1e`, NEL, LINE SEPARATOR and PARAGRAPH SEPARATOR). -/
def isLineBoundaryChar (c : Char) : Bool :=
  c = '\n' || c = '\r' || c = '\x0b' || c = '\x0c' ||
  c = '\x1c' || c = '\x1d' || c = '\x1e' || c = '\x85' ||
  c.toNat = 0x2028 || c.toNat = 0x2029

/-- Worker for `pySplitlines`; `acc` holds the current line, reversed. -/
def splitlinesAux (acc : Str) : Str → List Str
  | [] => if acc = [] then [] else [acc.reverse]
  | c :: rest =>
    if c = '\r' then
      match rest with
      | c2 :: rest2 =>
        if c2 = '\n' then acc.reverse :: splitlinesAux [] rest2
        else acc.reverse :: splitlinesAux [] (c2 :: rest2)
      | [] => acc.reverse :: splitlinesAux [] []
    else if isLineBoundaryChar c then acc.reverse :: splitlinesAux [] rest
    else splitlinesAux (c :: acc) rest

/-- Python's `str.splitlines()`: split at line boundaries, treating CRLF as a
single boundary; a trailing boundary does not produce an empty final line. -/
def pySplitlines (s : Str) : List Str := splitlinesAux [] s

/-- Python's `output.replace("\r\n", "\n")`: the left-to-right,
non-overlapping replacement of CRLF by LF. -/
def replaceCrLf : Str → Str
  | [] => []
  | c :: rest =>
    if c = '\r' then
      match rest with
      | c2 :: rest2 =>
        if c2 = '\n' then '\n' :: replaceCrLf rest2
        else c :: replaceCrLf (c2 :: rest2)
      | [] => [c]
    else c :: replaceCrLf rest

/-- Python's `output.replace("\r", "\n")`. -/
def replaceCr : Str → Str
  | [] => []
  | c :: rest => (if c = '\r' then '\n' else c) :: replaceCr rest

/-- The first line of `Context._extract_result`:
`output.replace("\r\n", "\n").replace("\r", "\n")`. -/
def normalizeNewlines (s : Str) : Str := replaceCr (replaceCrLf s)

/-- JSON values, as produced by `json.loads`.  Numbers are modelled as
integers; fractional literals are outside the embedding. -/
inductive JVal where
  | null : JVal
  | bool : Bool → JVal
  | num : Int → JVal
  | jstr : Str → JVal
  | arr : List JVal → JVal
  | obj : List (Str × JVal) → JVal

/-- JSON insignificant whitespace. -/
def isJsonWs (c : Char) : Bool :=
  c = ' ' || c = '\t' || c = '\n' || c = '\r'

/-- Drop leading JSON whitespace. -/
def skipWs : Str → Str
  | [] => []
  | c :: rest => if isJsonWs c then skipWs rest else c :: rest

/-- The numeric value of a hexadecimal digit. -/
def hexVal (c : Char) : Option Nat :=
  if '0' ≤ c ∧ c ≤ '9' then some (c.toNat - '0'.toNat)
  else if 'a' ≤ c ∧ c ≤ 'f' then some (c.toNat - 'a'.toNat + 10)
  else if 'A' ≤ c ∧ c ≤ 'F' then some (c.toNat - 'A'.toNat + 10)
  else none

/-- The value of a four-hex-digit escape payload. -/
def hex4 (a b c d : Char) : Option Nat := do
  let va ← hexVal a
  let vb ← hexVal b
  let vc ← hexVal c
  let vd ← hexVal d
  pure (((va * 16 + vb) * 16 + vc) * 16 + vd)

/-- Decode the continuation of a high surrogate: a second `\uXXXX` escape
holding the low surrogate, combined with the high half `n` into one scalar
value.  An unpaired surrogate is rejected (Lean's `Char` cannot hold it). -/
def lexLowSurrogate (n : Nat) : Str → Option (Char × Str)
  | e2 :: u2 :: a2 :: b2 :: c4 :: d2 :: rest4 =>
    if e2 = '\\' ∧ u2 = 'u' then
      (hex4 a2 b2 c4 d2).bind fun m =>
        if 0xdc00 ≤ m ∧ m ≤ 0xdfff then
          some (Char.ofNat (0x10000 + (n - 0xd800) * 0x400 + (m - 0xdc00)), rest4)
        else none
    else none
  | _ => none

/-- Decode the payload of a `\uXXXX` escape (input begins right after the
`\u`): four hex digits, with surrogate pairing via `lexLowSurrogate`. -/
def lexUnicodeEsc : Str → Option (Char × Str)
  | a :: b :: c3 :: d :: rest3 =>
    (hex4 a b c3 d).bind fun n =>
      if 0xd800 ≤ n ∧ n ≤ 0xdbff then lexLowSurrogate n rest3
      else if 0xdc00 ≤ n ∧ n ≤ 0xdfff then none
      else some (Char.ofNat n, rest3)
  | _ => none

/-- Decode one escape sequence (input begins right after the backslash):
the short escapes of JSON plus `\uXXXX`; anything else is rejected, as in
the strict-mode scanner of Python's `json`. -/
def readEscape : Str → Option (Char × Str)
  | [] => none
  | e :: rest2 =>
    if e = 'u' then lexUnicodeEsc rest2
    else if e = '"' then some ('"', rest2)
    else if e = '\\' then some ('\\', rest2)
    else if e = '/' then some ('/', rest2)
    else if e = 'b' then some ('\x08', rest2)
    else if e = 'f' then some ('\x0c', rest2)
    else if e = 'n' then some ('\n', rest2)
    else if e = 'r' then some ('\r', rest2)
    else if e = 't' then some ('\t', rest2)
    else none

/-- Lex the body of a JSON string literal (the opening quote already
consumed); returns the decoded content and the remaining input.  Mirrors
Python's strict-mode scanner: raw control characters and unknown escapes are
rejected.  Fuel-indexed; every step consumes at least one character, so fuel
of one more than the input length always suffices. -/
def lexStringBody : Nat → Str → Option (Str × Str)
  | 0, _ => none
  | _, [] => none
  | fuel + 1, c :: rest =>
    if c = '"' then some ([], rest)
    else if c = '\\' then
      (readEscape rest).bind fun p =>
        (lexStringBody fuel p.2).map fun q => (p.1 :: q.1, q.2)
    else if c.toNat < 0x20 then none
    else (lexStringBody fuel rest).map fun q => (c :: q.1, q.2)

/-- Decimal digit test. -/
def isDigitChar (c : Char) : Bool := '0' ≤ c && c ≤ '9'

/-- The natural number denoted by a list of decimal digits. -/
def digitsToNat (ds : Str) : Nat :=
  ds.foldl (fun acc c => acc * 10 + (c.toNat - '0'.toNat)) 0

/-- Parse a JSON number at the head of the input.  Only integer literals are
supported by the embedding; a fraction or exponent makes the parse fail. -/
def lexNumber : Str → Option (Int × Str)
  | '-' :: rest =>
    (lexNumber rest).bind fun p =>
      match p with
      | (Int.ofNat n, r) => some (-(Int.ofNat n), r)
      | _ => none
  | s =>
    let ds := s.takeWhile isDigitChar
    let r := s.dropWhile isDigitChar
    if ds = [] then none
    else
      match r with
      | '.' :: _ => none
      | 'e' :: _ => none
      | 'E' :: _ => none
      | _ => some (Int.ofNat (digitsToNat ds), r)

mutual

/-- Fuel-indexed recursive-descent parser for a JSON value; returns the value
and the remaining input. -/
def parseVal : Nat → Str → Option (JVal × Str)
  | 0, _ => none
  | fuel + 1, s =>
    match skipWs s with
    | 'n' :: 'u' :: 'l' :: 'l' :: r => some (JVal.null, r)
    | 't' :: 'r' :: 'u' :: 'e' :: r => some (JVal.bool true, r)
    | 'f' :: 'a' :: 'l' :: 's' :: 'e' :: r => some (JVal.bool false, r)
    | '"' :: r => (lexStringBody (r.length + 1) r).map fun p => (JVal.jstr p.1, p.2)
    | '[' :: r =>
      (match skipWs r with
       | ']' :: r2 => some (JVal.arr [], r2)
       | r2 => (parseElems fuel r2).map fun p => (JVal.arr p.1, p.2))
    | '\x7b' :: r =>
      (match skipWs r with
       | '\x7d' :: r2 => some (JVal.obj [], r2)
       | r2 => (parseMembers fuel r2).map fun p => (JVal.obj p.1, p.2))
    | s2 => (lexNumber s2).map fun p => (JVal.num p.1, p.2)

/-- Parse the comma-separated elements of a JSON array, up to and including
the closing bracket. -/
def parseElems : Nat → Str → Option (List JVal × Str)
  | 0, _ => none
  | fuel + 1, s =>
    (parseVal fuel s).bind fun p =>
      match skipWs p.2 with
      | ',' :: r => (parseElems fuel r).map fun q => (p.1 :: q.1, q.2)
      | ']' :: r => some ([p.1], r)
      | _ => none

/-- Parse the comma-separated members of a JSON object, up to and including
the closing brace. -/
def parseMembers : Nat → Str → Option (List (Str × JVal) × Str)
  | 0, _ => none
  | fuel + 1, s =>
    match skipWs s with
    | '"' :: r =>
      (lexStringBody (r.length + 1) r).bind fun k =>
        match skipWs k.2 with
        | ':' :: r2 =>
          (parseVal fuel r2).bind fun v =>
            match skipWs v.2 with
            | ',' :: r3 => (parseMembers fuel r3).map fun q => ((k.1, v.1) :: q.1, q.2)
            | '\x7d' :: r3 => some ([(k.1, v.1)], r3)
            | _ => none
        | _ => none
    | _ => none

end

/-- Python's `json.loads`, restricted to the JSON subset of the embedding:
parse one value and require only whitespace to follow. -/
def jsonLoads (s : Str) : Option JVal :=
  match parseVal (2 * s.length + 4) s with
  | some (v, rest) => if skipWs rest = [] then some v else none
  | none => none

/-- Python's `len()` on a decoded JSON value: defined for arrays, strings and
objects; `none` models the `TypeError` raised on numbers, booleans and
`None`. -/
def jvalLen : JVal → Option Nat
  | JVal.arr xs => some xs.length
  | JVal.jstr s => some s.length
  | JVal.obj kvs => some kvs.length
  | _ => none

/-- Python's `value[0]` on a decoded JSON value: first element of a list,
first character of a string (as a one-character string); on an object this is
a key lookup of the integer `0`, which fails for JSON objects (string keys
only), modelling the `KeyError`. -/
def jvalIndex0 : JVal → Option JVal
  | JVal.arr (x :: _) => some x
  | JVal.jstr (c :: _) => some (JVal.jstr [c])
  | _ => none

/-- Python sequence unpacking `status, value = ret`: the elements a decoded
JSON value yields when iterated — list elements, one-character strings of a
string, the keys of an object. -/
def jvalElems : JVal → Option (List JVal)
  | JVal.arr xs => some xs
  | JVal.jstr s => some (s.map fun c => JVal.jstr [c])
  | JVal.obj kvs => some (kvs.map fun kv => JVal.jstr kv.1)
  | _ => none

/-- Python's `status == "ok"` on a decoded JSON value. -/
def isOkStatus : JVal → Bool
  | JVal.jstr s => s = str "ok"
  | _ => false

/-- The outcomes of `Context._extract_result`: `programError v` models
`raise ProgramError(v)`; the other constructors model the exceptions that
escape the extractor (`IndexError` when no line contains a bracket, the
`json` decoding exception, and the failures of `len`/indexing/unpacking on
an unsuitable decoded value). -/
inductive ExtractError where
  | noResultLine : ExtractError
  | jsonDecodeError : ExtractError
  | unpackError : ExtractError
  | programError : JVal → ExtractError

/-- The tail of `Context._extract_result` on the decoded JSON value:
`if len(ret) == 1: ret = [ret[0], None]`, the unpacking
`status, value = ret`, and the dispatch on `status == "ok"`. -/
def interpretResultLine (ret : JVal) : Except ExtractError JVal :=
  if jvalLen ret = some 1 then
    match jvalIndex0 ret with
    | none => Except.error ExtractError.unpackError
    | some first =>
      if isOkStatus first then Except.ok JVal.null
      else Except.error (ExtractError.programError JVal.null)
  else
    match jvalElems ret with
    | some [status, value] =>
      if isOkStatus status then Except.ok value
      else Except.error (ExtractError.programError value)
    | _ => Except.error ExtractError.unpackError

/-- `ret = json.loads(output_last_line)` followed by the dispatch. -/
def resultFromLine (lastLine : Str) : Except ExtractError JVal :=
  match jsonLoads lastLine with
  | none => Except.error ExtractError.jsonDecodeError
  | some ret => interpretResultLine ret

/-- `Context._extract_result`, translated line by line: normalize line
endings, select the last line containing a bracket, decode it as JSON, pad a
one-element value with `None`, unpack into `(status, value)` and dispatch on
`status == "ok"`. -/
def extract_result (output : Str) : Except ExtractError JVal :=
  match ((pySplitlines (normalizeNewlines output)).filter
      fun line => line.contains ']').getLast? with
  | none => Except.error ExtractError.noResultLine
  | some lastLine => resultFromLine lastLine

/-- Append to `toHexDigit`: lower-case hexadecimal digit for a value below 16. -/
def toHexDigit (n : Nat) : Char :=
  if n < 10 then Char.ofNat ('0'.toNat + n) else Char.ofNat ('a'.toNat + n - 10)

/-- The four lower-case hex digits of a value below `0x10000`, as printed by
Python's `"\u%04x"` formatting. -/
def toHex4 (n : Nat) : Str :=
  [toHexDigit (n / 4096 % 16), toHexDigit (n / 256 % 16),
   toHexDigit (n / 16 % 16), toHexDigit (n % 16)]

/-- A `\uXXXX` escape for a value below `0x10000`. -/
def uEscape (n : Nat) : Str := '\\' :: 'u' :: toHex4 n

/-- The `\uXXXX` escape(s) for an arbitrary scalar value: a single escape in
the basic plane, a surrogate pair above it. -/
def uEscapeChar (c : Char) : Str :=
  if c.toNat < 0x10000 then uEscape c.toNat
  else
    uEscape (0xd800 + (c.toNat - 0x10000) / 0x400) ++
    uEscape (0xdc00 + (c.toNat - 0x10000) % 0x400)

/-- One character of the output of Python's `json.dumps` on a string with
`ensure_ascii=True`: the two-character escapes of the escape table, `\uXXXX`
escapes for every other character outside `0x20`-`0x7e`, and the character
itself otherwise. -/
def escapeJsonChar (c : Char) : Str :=
  if c = '"' then ['\\', '"']
  else if c = '\\' then ['\\', '\\']
  else if c = '\n' then ['\\', 'n']
  else if c = '\r' then ['\\', 'r']
  else if c = '\t' then ['\\', 't']
  else if c = '\x08' then ['\\', 'b']
  else if c = '\x0c' then ['\\', 'f']
  else if c.toNat < 0x20 ∨ 0x7e < c.toNat then uEscapeChar c
  else [c]

/-- Python's `json.dumps` on a string (default `ensure_ascii=True`): a
double-quoted literal with every character escaped by `escapeJsonChar`. -/
def jsonDumpsStr (s : Str) : Str :=
  '"' :: (s.map escapeJsonChar).flatten ++ ['"']

/-- Reading back a complete JSON string literal, reusing the scanner of the
embedded JSON reader; this is how the engine-side `JSON`/`eval` machinery
recovers the text denoted by the literal. -/
def decodeStringLit (s : Str) : Option Str :=
  match s with
  | '"' :: r =>
    (lexStringBody (r.length + 1) r).bind fun p => if p.2 = [] then some p.1 else none
  | _ => none

/-- Modelled from the spec: `encode_unicode_codepoints` lives in
`execjs/_misc.py`, which is not among the provided sources.  Per the spec,
every character outside the printable ASCII range is escaped as a `\uXXXX`
Unicode escape (astral characters as a surrogate pair) and all other
characters are kept unchanged. -/
def encodeUnicodeCodepoints (s : Str) : Str :=
  (s.map fun c =>
    if 0x20 ≤ c.toNat ∧ c.toNat ≤ 0x7e then [c] else uEscapeChar c).flatten

/-- The value substituted for `#{encoded_source}` in `Context._compile`:
`json.dumps("(function(){ " + encode_unicode_codepoints(source) + " })()")`. -/
def encodedSource (source : Str) : Str :=
  jsonDumpsStr (str "(function()\x7b " ++ encodeUnicodeCodepoints source ++ str " \x7d)()")

/-- Fuel-indexed worker for `Context._compile`'s `re.sub`: a single
left-to-right scan over the template; at each position the three placeholder
literals are tried in the order of the replacements table and a match is
replaced by the corresponding value, which is not rescanned.  The fuel is
always instantiated with at least the length of the input. -/
def substFuel (src enc j2 : Str) : Nat → Str → Str
  | _, [] => []
  | 0, s => s
  | fuel + 1, s =>
    if (str "#{source}").isPrefixOf s then src ++ substFuel src enc j2 fuel (s.drop 9)
    else if (str "#{encoded_source}").isPrefixOf s then
      enc ++ substFuel src enc j2 fuel (s.drop 17)
    else if (str "#{json2_source}").isPrefixOf s then
      j2 ++ substFuel src enc j2 fuel (s.drop 15)
    else
      match s with
      | [] => []
      | c :: r => c :: substFuel src enc j2 fuel r

/-- An execution context: the per-engine wrapper template
(`self._runtime._runner_source`), the opaque compatibility-shim blob
(`_json2._json2_source`, external to the module), and the optional header
source bound at compilation time (`self._source`). -/
structure Context where
  runner_source : Str
  json2source : Str
  header : Str

/-- `Context._compile`: substitute the placeholder tokens of the wrapper
template. -/
def Context.compile (ctx : Context) (source : Str) : Str :=
  substFuel source (encodedSource source) ctx.json2source
    ctx.runner_source.length ctx.runner_source

/-- Python's white-space test used by `str.strip()` (the Unicode white-space
characters). -/
def isPySpace (c : Char) : Bool :=
  (9 ≤ c.toNat && c.toNat ≤ 13) || c.toNat = 32 ||
  (0x1c ≤ c.toNat && c.toNat ≤ 0x1f) || c.toNat = 0x85 || c.toNat = 0xa0 ||
  c.toNat = 0x1680 || (0x2000 ≤ c.toNat && c.toNat ≤ 0x200a) ||
  c.toNat = 0x2028 || c.toNat = 0x2029 || c.toNat = 0x202f ||
  c.toNat = 0x205f || c.toNat = 0x3000

/-- Python's `source.strip()`. -/
def pyStrip (s : Str) : Str :=
  ((s.dropWhile isPySpace).reverse.dropWhile isPySpace).reverse

/-- `Context._eval`: the program text handed to `exec_`.  A blank snippet
turns into `return eval('')`; any other snippet is JSON-escaped and
parenthesized, producing `return eval('('+<literal>+')')`. -/
def Context.eval_code (source : Str) : Str :=
  if pyStrip source = [] then str "return eval(\x27\x27)"
  else str "return eval(\x27(\x27+" ++ jsonDumpsStr source ++ str "+\x27)\x27)"

/-- The header prepension at the top of `Context._exec_`:
`if self._source: source = self._source + '\n' + source`. -/
def Context.exec_source (header source : Str) : Str :=
  if header = [] then source else header ++ str "\n" ++ source

/-- The result of one spawned process: exit status and captured output
streams (the oracle supplied in place of `subprocess.Popen`). -/
structure ProcResult where
  status : Int
  stdoutdata : Str
  stderrdata : Str

/-- The transport-level failures: `ProcessExitedWithNonZeroStatus{status,
stdout, stderr}`, and the failure of a session `expect` call (the sentinel
never appears). -/
inductive ExecError where
  | processExitedWithNonZeroStatus : Int → Str → Str → ExecError
  | expectFailure : ExecError

/-- `Context._fail_on_non_zero_status`. -/
def fail_on_non_zero_status (status : Int) (stdoutdata stderrdata : Str) :
    Except ExecError Unit :=
  if status ≠ 0 then
    Except.error (ExecError.processExitedWithNonZeroStatus status stdoutdata stderrdata)
  else Except.ok ()

/-- The sentinel line `end_str = '//!!@@##'` of `Context._exec_with_session`. -/
def sessionSentinel : Str := str "//!!@@##"

/-- Split a stream at the first occurrence of `pat`: the text before the
occurrence and the text after it.  This is the `expect`/`before` primitive of
the pexpect backend. -/
def expectSplit (pat : Str) : Str → Option (Str × Str)
  | [] => none
  | c :: r =>
    if pat.isPrefixOf (c :: r) then some ([], (c :: r).drop pat.length)
    else (expectSplit pat r).map fun p => (c :: p.1, p.2)

/-- `Context._exec_with_session`: compile, send the compiled text plus the
sentinel as one `sendline` submission (`sendline` appends the platform line
separator), block until the sentinel reappears in the output stream, and
return everything received before it.  The first component is the submitted
text, the second the statement's raw output. -/
def Context.exec_with_session (ctx : Context) (linesep : Str) (stream : Str)
    (source : Str) : Str × Except ExecError Str :=
  let input := ctx.compile source
  let endStr := sessionSentinel
  (input ++ str "\n" ++ endStr ++ linesep,
   match expectSplit endStr stream with
   | some p => Except.ok p.1
   | none => Except.error ExecError.expectFailure)

/-- Substring containment, Python's `in` on strings. -/
def containsSub (pat : Str) : Str → Bool
  | [] => pat = []
  | c :: r => pat.isPrefixOf (c :: r) || containsSub pat r

/-- The engine-specific accommodation of `Context._exec_with_pipe`:
`input = ''.join(input.splitlines()) if 'deno' in cmd[0] else input`. -/
def pipeInput (cmd : List Str) (input : Str) : Str :=
  if containsSub (str "deno") (cmd.headD []) then (pySplitlines input).flatten
  else input

/-- `Context._exec_with_pipe`: compile, flatten for the newline-sensitive
engine, feed the text to the spawned process (the `proc` oracle), fail on a
non-zero exit status, otherwise return the captured standard output. -/
def Context.exec_with_pipe (ctx : Context) (cmd : List Str)
    (proc : Str → ProcResult) (source : Str) : Except ExecError Str :=
  let input := pipeInput cmd (ctx.compile source)
  let r := proc input
  match fail_on_non_zero_status r.status r.stdoutdata r.stderrdata with
  | Except.error e => Except.error e
  | Except.ok _ => Except.ok r.stdoutdata

/-- The name produced by `tempfile.mkstemp(prefix='execjs', suffix='.js')`
for a given unique infix chosen by the library. -/
def mkstempName (fresh : Str) : Str := str "execjs" ++ fresh ++ str ".js"

/-- The file system visible to tempfile mode: file name to written bytes. -/
abbrev FileSys := List (Str × List Nat)

/-- File-system lookup. -/
def fsLookup : FileSys → Str → Option (List Nat)
  | [], _ => none
  | kv :: t, k => if kv.1 = k then some kv.2 else fsLookup t k

/-- Remove a file. -/
def fsErase : FileSys → Str → FileSys
  | [], _ => []
  | kv :: t, k => if kv.1 = k then fsErase t k else kv :: fsErase t k

/-- Create or overwrite a file. -/
def fsWrite (fs : FileSys) (k : Str) (v : List Nat) : FileSys :=
  (k, v) :: fsErase fs k

/-- `Context._exec_with_tempfile`: create the uniquely named temp file, write
the compiled text encoded with the descriptor's encoding (the `encode`
oracle), invoke the binary with the file path appended, fail on a non-zero
exit status, and remove the temp file on every path (the `finally` block).
Returns the call's outcome and the final file system. -/
def Context.exec_with_tempfile (ctx : Context) (cmd0 : List Str) (fresh : Str)
    (encode : Str → List Nat) (proc : List Str → FileSys → ProcResult)
    (source : Str) (fs : FileSys) : Except ExecError Str × FileSys :=
  let filename := mkstempName fresh
  let fs1 := fsWrite fs filename (encode (ctx.compile source))
  let cmd := cmd0 ++ [filename]
  let r := proc cmd fs1
  let res : Except ExecError Str :=
    match fail_on_non_zero_status r.status r.stdoutdata r.stderrdata with
    | Except.error e => Except.error e
    | Except.ok _ => Except.ok r.stdoutdata
  (res, fsErase fs1 filename)

/-- The failures of a full evaluation: a transport failure or an extraction
failure. -/
inductive EvalError where
  | transport : ExecError → EvalError
  | extract : ExtractError → EvalError

/-- `Context._exec_` in session mode: prepend the header, execute over the
session, and hand the raw output to the result extractor. -/
def Context.run_session (ctx : Context) (linesep : Str) (stream : Str)
    (source : Str) : Except EvalError JVal :=
  let source2 := Context.exec_source ctx.header source
  match (ctx.exec_with_session linesep stream source2).2 with
  | Except.error e => Except.error (EvalError.transport e)
  | Except.ok out =>
    match extract_result out with
    | Except.error e => Except.error (EvalError.extract e)
    | Except.ok v => Except.ok v

/-- Python's `str.split(sep)` for a one-character separator: always at least
one (possibly empty) field. -/
def splitOnChar (sep : Char) : Str → List Str
  | [] => [[]]
  | c :: r =>
    if c = sep then [] :: splitOnChar sep r
    else
      match splitOnChar sep r with
      | [] => [[c]]
      | h :: t => (c :: h) :: t

/-- `os.path.join(dir, file)` for a relative `file`: an absolute `file` wins,
an empty `dir` contributes nothing, and a separator is inserted unless `dir`
already ends with one. -/
def joinPath (dirSep : Char) (d f : Str) : Str :=
  if f.head? = some dirSep then f
  else if d = [] then f
  else if d.getLast? = some dirSep then d ++ f
  else d ++ [dirSep] ++ f

/-- `stat.S_ISREG(st.st_mode) and (stat.S_IMODE(st.st_mode) & 0o111)`: a
regular file with at least one execute permission bit. -/
def okMode (mode : Nat) : Bool :=
  (mode &&& 0o170000 == 0o100000) && (mode &&& 0o7777 &&& 0o111 != 0)

/-- `_find_executable(prog, pathext)`: walk the directories of the `PATH`
environment value in listed order and, within each, the extensions in listed
order; the first candidate whose `os.stat` succeeds (the `statf` oracle) and
satisfies the regular-file/execute-bit test is returned.  `statf` returning
`none` models `os.stat` raising. -/
def find_executable (statf : Str → Option Nat) (pathEnv : Str)
    (pathSep dirSep : Char) (prog : Str) (pathext : List Str) : Option Str :=
  (splitOnChar pathSep pathEnv).findSome? fun dir =>
    pathext.findSome? fun ext =>
      let filename := joinPath dirSep dir (prog ++ ext)
      match statf filename with
      | none => none
      | some mode => if okMode mode then some filename else none

/-- `_which(command)`: normalize a bare string to a one-element list, resolve
`command[0]` through `_find_executable` — on the Windows platform family with
the extensions of the `PATHEXT` environment value, elsewhere with the single
empty extension — and return the resolved path with the fixed arguments
appended, or `None` (an empty resolved path is also falsy). -/
def pyWhich (isWindows : Bool) (statf : Str → Option Nat) (pathEnv : Str)
    (pathSep dirSep : Char) (pathextEnv : Str) (command : Sum Str (List Str)) :
    Option (List Str) :=
  let command := match command with | Sum.inl s => [s] | Sum.inr l => l
  let name := command.headD []
  let args := command.tail
  let path :=
    if isWindows then
      find_executable statf pathEnv pathSep dirSep name (splitOnChar pathSep pathextEnv)
    else
      find_executable statf pathEnv pathSep dirSep name [[]]
  match path with
  | none => none
  | some p => if p = [] then none else some (p :: args)

/-- The engine descriptor `ExternalRuntime`, with every attribute assigned by
`__init__` (and the `_binary_cache` attribute installed by the first
`_binary()` call, which `__init__` itself triggers through
`self._available`). -/
structure ExternalRuntime where
  name : Str
  command : List Str
  runner_source : Str
  encoding : Str
  tempfileMode : Bool
  sessionHandle : Option Nat
  prompt : Str
  available : Bool
  binaryCache : Option (Option (List Str))
deriving DecidableEq

/-- `ExternalRuntime.__init__`: normalize a bare-string command to a list,
store the configuration, set `_session = None`, and compute availability by
resolving the binary (which caches the resolution).  The `whichf` oracle
stands for `_which` applied to the ambient environment. -/
def ExternalRuntime.init (whichf : List Str → Option (List Str)) (name : Str)
    (command : Sum Str (List Str)) (runner_source : Str) (encoding : Str)
    (tempfileMode : Bool) (prompt : Str) : ExternalRuntime :=
  let cmd := match command with | Sum.inl s => [s] | Sum.inr l => l
  let b := whichf cmd
  { name := name, command := cmd, runner_source := runner_source,
    encoding := encoding, tempfileMode := tempfileMode, sessionHandle := none,
    prompt := prompt, available := b.isSome, binaryCache := some b }

/-- `ExternalRuntime._binary`: return the cached resolution, computing and
installing it on first use. -/
def ExternalRuntime.binary (whichf : List Str → Option (List Str))
    (r : ExternalRuntime) : ExternalRuntime × Option (List Str) :=
  match r.binaryCache with
  | some b => (r, b)
  | none => let b := whichf r.command; ({ r with binaryCache := some b }, b)

/-- `ExternalRuntime.session`: resolve the binary, spawn an interactive
process (the `handle` abstracts the pexpect spawn, prompt wait and
`delaybeforesend` reset), store the handle in `self._session` and return it.
When the binary does not resolve, the spawn raises before the assignment. -/
def ExternalRuntime.session (whichf : List Str → Option (List Str))
    (handle : Nat) (r : ExternalRuntime) : ExternalRuntime × Option Nat :=
  let rc := r.binary whichf
  match rc.2 with
  | none => (rc.1, none)
  | some _ => ({ rc.1 with sessionHandle := some handle }, some handle)

/-- The spec's normalization, written as a single scan: CRLF becomes LF and a
bare CR becomes LF. -/
def normalizeSpec : Str → Str
  | [] => []
  | c :: rest =>
    if c = '\r' then
      match rest with
      | c2 :: rest2 =>
        if c2 = '\n' then '\n' :: normalizeSpec rest2
        else '\n' :: normalizeSpec (c2 :: rest2)
      | [] => ['\n']
    else c :: normalizeSpec rest

/-- The spec's line selection, written directly: the last line containing a
`]` character, found from the end. -/
def lastBracketLine (lines : List Str) : Option Str :=
  lines.reverse.find? fun line => line.contains ']'

/-- The result extractor exactly as claim C1 words it: normalize line
endings, select the last line containing `]`, decode it as a JSON array
interpreted as `(status, value)` (a one-element array's missing value reads
as null, per the spec's result-tuple description), return the value when the
status is `"ok"` and raise `ProgramError` carrying the value otherwise. -/
def extract_result_claim (output : Str) : Except ExtractError JVal :=
  match lastBracketLine (pySplitlines (normalizeSpec output)) with
  | none => Except.error ExtractError.noResultLine
  | some lastLine =>
    match jsonLoads lastLine with
    | some (JVal.arr [status]) =>
      if isOkStatus status then Except.ok JVal.null
      else Except.error (ExtractError.programError JVal.null)
    | some (JVal.arr [status, value]) =>
      if isOkStatus status then Except.ok value
      else Except.error (ExtractError.programError value)
    | some (JVal.arr _) => Except.error ExtractError.unpackError
    | some _ => Except.error ExtractError.jsonDecodeError
    | none => Except.error ExtractError.jsonDecodeError

/-- The amended dispatch: pad a decoded value of length one with null,
unpack a value of length two by Python sequence unpacking (list elements,
characters of a string, keys of an object) into `(status, value)`, and
dispatch on `status == "ok"`. -/
def interpretResultLineAmended (ret : JVal) : Except ExtractError JVal :=
  match
    (match jvalLen ret with
     | some 1 => (jvalIndex0 ret).map fun first => [first, JVal.null]
     | _ => jvalElems ret : Option (List JVal)) with
  | some [status, value] =>
    if isOkStatus status then Except.ok value
    else Except.error (ExtractError.programError value)
  | _ => Except.error ExtractError.unpackError

/-- The amended decode-and-dispatch stage on the selected line. -/
def resultFromLineAmended (lastLine : Str) : Except ExtractError JVal :=
  match jsonLoads lastLine with
  | none => Except.error ExtractError.jsonDecodeError
  | some ret => interpretResultLineAmended ret

/-- The amended description of the full result extractor: normalize line
endings, select the last line containing `]`, decode it as a JSON value and
dispatch per `interpretResultLineAmended`. -/
def extract_result_amended (output : Str) : Except ExtractError JVal :=
  match lastBracketLine (pySplitlines (normalizeSpec output)) with
  | none => Except.error ExtractError.noResultLine
  | some lastLine => resultFromLineAmended lastLine

/-- The recognized placeholder tokens, in the order of the replacements
table of `Context._compile`. -/
def placeholderTokens : List Str :=
  [str "#{source}", str "#{encoded_source}", str "#{json2_source}"]

/-- Whether a recognized placeholder token occurs somewhere in a string. -/
def containsToken (s : Str) : Bool :=
  placeholderTokens.any fun t => containsSub t s

/-- One piece of a template, as carved up by the single substitution scan:
a literal character or one of the three recognized placeholders. -/
inductive Piece where
  | lit : Char → Piece
  | tokSource : Piece
  | tokEncoded : Piece
  | tokJson2 : Piece
deriving DecidableEq

/-- The greedy left-to-right tokenization of a template into literal
characters and placeholder occurrences, mirroring the scan of `re.sub` over
the alternation of the three placeholder literals. -/
def tokenizeFuel : Nat → Str → List Piece
  | _, [] => []
  | 0, s => s.map Piece.lit
  | fuel + 1, s =>
    if (str "#{source}").isPrefixOf s then Piece.tokSource :: tokenizeFuel fuel (s.drop 9)
    else if (str "#{encoded_source}").isPrefixOf s then
      Piece.tokEncoded :: tokenizeFuel fuel (s.drop 17)
    else if (str "#{json2_source}").isPrefixOf s then
      Piece.tokJson2 :: tokenizeFuel fuel (s.drop 15)
    else
      match s with
      | [] => []
      | c :: r => Piece.lit c :: tokenizeFuel fuel r

/-- The tokenization of a template. -/
def tokenize (template : Str) : List Piece := tokenizeFuel template.length template

/-- Rendering one piece: a literal character stands for itself, each
placeholder for its substituted value. -/
def renderPiece (src enc j2 : Str) : Piece → Str
  | Piece.lit c => [c]
  | Piece.tokSource => src
  | Piece.tokEncoded => enc
  | Piece.tokJson2 => j2

/-- Rendering a tokenized template: every placeholder occurrence replaced by
its value exactly once, everything else copied unchanged. -/
def renderPieces (src enc j2 : Str) (ps : List Piece) : Str :=
  (ps.map (renderPiece src enc j2)).flatten

/-- The executable-resolution probe exactly as claim C5 words it: walk the
`PATH` directories in order; on the Windows platform family try each
`PATHEXT` extension in order, testing mere existence; only on the other
platform family require a regular file with an execute permission bit. -/
def find_executable_claim (isWindows : Bool) (statf : Str → Option Nat)
    (pathEnv : Str) (pathSep dirSep : Char) (prog : Str) (pathext : List Str) :
    Option Str :=
  (splitOnChar pathSep pathEnv).findSome? fun dir =>
    (if isWindows then pathext else [[]]).findSome? fun ext =>
      let filename := joinPath dirSep dir (prog ++ ext)
      if isWindows then
        if (statf filename).isSome then some filename else none
      else
        match statf filename with
        | none => none
        | some mode => if okMode mode then some filename else none

/-- The stat-and-mode test of `_find_executable`, as a predicate on a
candidate path. -/
def statOk (statf : Str → Option Nat) (f : Str) : Bool :=
  match statf f with
  | some mode => okMode mode
  | none => false

/-- The amended description of the probe: list every candidate path —
directories of `PATH` in listed order, extensions in listed order within a
directory — and return the first one that is a regular file with at least
one execute permission bit (this test applies on every platform family). -/
def find_executable_spec (statf : Str → Option Nat) (pathEnv : Str)
    (pathSep dirSep : Char) (prog : Str) (pathext : List Str) : Option Str :=
  (((splitOnChar pathSep pathEnv).map fun dir =>
      pathext.map fun ext => joinPath dirSep dir (prog ++ ext)).flatten).find?
    (statOk statf)

/-- Whether the pattern occurs in `s` starting at position `i`. -/
def matchesAt (pat s : Str) (i : Nat) : Bool := pat.isPrefixOf (s.drop i)

/-- Printable ASCII. -/
def isPrintableAscii (c : Char) : Bool := 0x20 ≤ c.toNat && c.toNat ≤ 0x7e

/-- The configuration portion of an engine descriptor: every field except
the session handle and the binary cache. -/
def ExternalRuntime.config (r : ExternalRuntime) :
    Str × List Str × Str × Str × Bool × Str × Bool :=
  (r.name, r.command, r.runner_source, r.encoding, r.tempfileMode, r.prompt,
   r.available)

/-! ## Theorems -/

/-- C2: in pipe and tempfile modes, execution fails with
`ProcessExitedWithNonZeroStatus` carrying the exit status and the captured
output streams exactly when the spawned process's exit status is non-zero,
and session-mode execution never produces this failure. -/
theorem nonzero_exit_iff_transport_failure :
    ∀ (ctx : Context) (cmd : List Str) (proc : Str → ProcResult) (source : Str)
      (s : Int) (o e : Str),
      ((ctx.exec_with_pipe cmd proc source =
          Except.error (ExecError.processExitedWithNonZeroStatus s o e)) ↔
        ((proc (pipeInput cmd (ctx.compile source))).status = s ∧
         (proc (pipeInput cmd (ctx.compile source))).stdoutdata = o ∧
         (proc (pipeInput cmd (ctx.compile source))).stderrdata = e ∧ s ≠ 0)) ∧
      (∀ (cmd0 : List Str) (fresh : Str) (encode : Str → List Nat)
         (proc2 : List Str → FileSys → ProcResult) (fs : FileSys),
        ((ctx.exec_with_tempfile cmd0 fresh encode proc2 source fs).1 =
            Except.error (ExecError.processExitedWithNonZeroStatus s o e)) ↔
          ((proc2 (cmd0 ++ [mkstempName fresh])
              (fsWrite fs (mkstempName fresh) (encode (ctx.compile source)))).status = s ∧
           (proc2 (cmd0 ++ [mkstempName fresh])
              (fsWrite fs (mkstempName fresh) (encode (ctx.compile source)))).stdoutdata = o ∧
           (proc2 (cmd0 ++ [mkstempName fresh])
              (fsWrite fs (mkstempName fresh) (encode (ctx.compile source)))).stderrdata = e ∧
           s ≠ 0)) ∧
      (∀ (linesep stream : Str),
        (ctx.exec_with_session linesep stream source).2 ≠
          Except.error (ExecError.processExitedWithNonZeroStatus s o e)) := by
  intro ctx cmd proc source s o e
  refine ⟨?_, fun cmd0 fresh encode proc2 fs => ?_, fun linesep stream => ?_⟩
  · by_cases h : (proc (pipeInput cmd (ctx.compile source))).status = 0
    · simp only [Context.exec_with_pipe, fail_on_non_zero_status, h]
      simp only [ne_eq, not_true_eq_false, if_false, reduceCtorEq, false_iff, not_and]
      intro hs _ _
      exact fun hne => hne hs.symm
    · simp only [Context.exec_with_pipe, fail_on_non_zero_status, if_pos h]
      constructor
      · intro heq
        injection heq with heq2
        injection heq2 with h1 h2 h3
        exact ⟨h1, h2, h3, h1 ▸ h⟩
      · rintro ⟨rfl, rfl, rfl, _⟩
        rfl
  · by_cases h : (proc2 (cmd0 ++ [mkstempName fresh])
        (fsWrite fs (mkstempName fresh) (encode (ctx.compile source)))).status = 0
    · simp only [Context.exec_with_tempfile, fail_on_non_zero_status, h]
      simp only [ne_eq, not_true_eq_false, if_false, reduceCtorEq, false_iff, not_and]
      intro hs _ _
      exact fun hne => hne hs.symm
    · simp only [Context.exec_with_tempfile, fail_on_non_zero_status, if_pos h]
      constructor
      · intro heq
        injection heq with heq2
        injection heq2 with h1 h2 h3
        exact ⟨h1, h2, h3, h1 ▸ h⟩
      · rintro ⟨rfl, rfl, rfl, _⟩
        rfl
  · simp only [Context.exec_with_session]
    cases expectSplit sessionSentinel stream <;> simp

/-- C9 counterexample: calling `session()` on a freshly constructed
descriptor mutates it — the `_session` field changes from `None` to the
spawned handle, so the descriptor is not left unmodified. -/
theorem session_mutates_descriptor :
    (ExternalRuntime.session (fun c => some c) 0
        (ExternalRuntime.init (fun c => some c) (str "Node.js (V8)")
          (Sum.inr [str "node"]) (str "runner") (str "UTF-8") false
          (str "> "))).1 ≠
      ExternalRuntime.init (fun c => some c) (str "Node.js (V8)")
        (Sum.inr [str "node"]) (str "runner") (str "UTF-8") false (str "> ") := by
  decide

/-- C9 amended: the configuration fields of a descriptor (name, command,
wrapper template, encoding, delivery mode, prompt, availability) are never
mutated; `session()` changes only the stored session handle and `_binary()`
only the resolution cache. -/
theorem descriptor_config_never_mutated :
    ∀ (whichf : List Str → Option (List Str)) (h : Nat) (r : ExternalRuntime),
      (ExternalRuntime.session whichf h r).1.config = r.config ∧
      (ExternalRuntime.binary whichf r).1.config = r.config := by
  intro whichf h r
  constructor
  · unfold ExternalRuntime.session ExternalRuntime.binary
    cases hc : r.binaryCache with
    | some b => cases b <;> simp [ExternalRuntime.config]
    | none => cases whichf r.command <;> simp [ExternalRuntime.config]
  · unfold ExternalRuntime.binary
    cases hc : r.binaryCache <;> simp [ExternalRuntime.config]

theorem fsLookup_fsErase_self (fs : FileSys) (k : Str) :
    fsLookup (fsErase fs k) k = none := by
  induction fs with
  | nil => rfl
  | cons a t ih =>
    by_cases h : a.1 = k
    · simpa [fsErase, h] using ih
    · simpa [fsErase, fsLookup, h] using ih

theorem fsLookup_fsErase_ne (fs : FileSys) (k g : Str) (h : g ≠ k) :
    fsLookup (fsErase fs k) g = fsLookup fs g := by
  induction fs with
  | nil => rfl
  | cons a t ih =>
    by_cases h2 : a.1 = k
    · have h3 : ¬ a.1 = g := fun he => h (he ▸ h2 : g = k)
      have h5 : ¬ k = g := fun he => h he.symm
      simp [fsErase, fsLookup, h2, h3, h5, ih]
    · by_cases h4 : a.1 = g
      · simp [fsErase, fsLookup, h2, h4, h]
      · simp [fsErase, fsLookup, h2, h4, ih]

theorem fsLookup_fsWrite_self (fs : FileSys) (k : Str) (v : List Nat) :
    fsLookup (fsWrite fs k v) k = some v := by
  simp [fsWrite, fsLookup]

theorem fsLookup_fsWrite_ne (fs : FileSys) (k g : Str) (v : List Nat)
    (h : g ≠ k) : fsLookup (fsWrite fs k v) g = fsLookup fs g := by
  have h2 : ¬ k = g := fun he => h he.symm
  simp only [fsWrite, fsLookup, if_neg h2]
  exact fsLookup_fsErase_ne fs k g h

/-- C4: every tempfile-mode execution writes the compiled program text,
encoded with the descriptor's encoding, to a freshly named `.js` temp file,
invokes the engine with the file path appended to its arguments, and removes
the temp file — and nothing else — before returning, on the success path and
on every failure path (the process oracle is universally quantified, so both
zero and non-zero exit statuses are covered). -/
theorem tempfile_mode_scoped_cleanup :
    ∀ (ctx : Context) (cmd0 : List Str) (fresh : Str) (encode : Str → List Nat)
      (proc : List Str → FileSys → ProcResult) (source : Str) (fs : FileSys),
      fsLookup fs (mkstempName fresh) = none →
      (∃ stem, mkstempName fresh = stem ++ str ".js") ∧
      fsLookup (ctx.exec_with_tempfile cmd0 fresh encode proc source fs).2
          (mkstempName fresh) = none ∧
      (∀ g, g ≠ mkstempName fresh →
        fsLookup (ctx.exec_with_tempfile cmd0 fresh encode proc source fs).2 g =
          fsLookup fs g) ∧
      fsLookup (fsWrite fs (mkstempName fresh) (encode (ctx.compile source)))
          (mkstempName fresh) = some (encode (ctx.compile source)) ∧
      (ctx.exec_with_tempfile cmd0 fresh encode proc source fs).1 =
        (match
            fail_on_non_zero_status
              (proc (cmd0 ++ [mkstempName fresh])
                (fsWrite fs (mkstempName fresh) (encode (ctx.compile source)))).status
              (proc (cmd0 ++ [mkstempName fresh])
                (fsWrite fs (mkstempName fresh) (encode (ctx.compile source)))).stdoutdata
              (proc (cmd0 ++ [mkstempName fresh])
                (fsWrite fs (mkstempName fresh) (encode (ctx.compile source)))).stderrdata with
          | Except.error err => Except.error err
          | Except.ok _ =>
            Except.ok
              (proc (cmd0 ++ [mkstempName fresh])
                (fsWrite fs (mkstempName fresh) (encode (ctx.compile source)))).stdoutdata) := by
  intro ctx cmd0 fresh encode proc source fs _
  refine ⟨⟨str "execjs" ++ fresh, by simp [mkstempName]⟩, ?_, ?_, ?_, ?_⟩
  · simp only [Context.exec_with_tempfile]
    exact fsLookup_fsErase_self _ _
  · intro g hg
    simp only [Context.exec_with_tempfile]
    rw [fsLookup_fsErase_ne _ _ _ hg]
    exact fsLookup_fsWrite_ne _ _ _ _ hg
  · exact fsLookup_fsWrite_self _ _ _
  · rfl

/-- Witness for C4 at a concrete context, command, oracle and empty file
system. -/
theorem tempfile_mode_scoped_cleanup_witness :
    fsLookup ([] : FileSys) (mkstempName (str "1")) = none ∧
    ((∃ stem, mkstempName (str "1") = stem ++ str ".js") ∧
      fsLookup
          (Context.exec_with_tempfile ⟨str "#{source}", str "J", str ""⟩
              [str "node"] (str "1") (fun s => s.map Char.toNat)
              (fun _ _ => ⟨1, str "out", str "err"⟩) (str "1+1") []).2
          (mkstempName (str "1")) = none ∧
      (∀ g, g ≠ mkstempName (str "1") →
        fsLookup
            (Context.exec_with_tempfile ⟨str "#{source}", str "J", str ""⟩
                [str "node"] (str "1") (fun s => s.map Char.toNat)
                (fun _ _ => ⟨1, str "out", str "err"⟩) (str "1+1") []).2 g =
          fsLookup [] g) ∧
      fsLookup (fsWrite [] (mkstempName (str "1")) ((str "1+1").map Char.toNat))
          (mkstempName (str "1")) = some ((str "1+1").map Char.toNat) ∧
      (Context.exec_with_tempfile ⟨str "#{source}", str "J", str ""⟩
          [str "node"] (str "1") (fun s => s.map Char.toNat)
          (fun _ _ => ⟨1, str "out", str "err"⟩) (str "1+1") []).1 =
        Except.error
          (ExecError.processExitedWithNonZeroStatus 1 (str "out") (str "err"))) :=
  ⟨rfl,
   tempfile_mode_scoped_cleanup ⟨str "#{source}", str "J", str ""⟩ [str "node"]
     (str "1") (fun s => s.map Char.toNat)
     (fun _ _ => ⟨1, str "out", str "err"⟩) (str "1+1") [] rfl⟩


theorem splitlinesAux_no_boundary (acc s : Str) :
    (∀ c ∈ acc, isLineBoundaryChar c = false) →
      ∀ line ∈ splitlinesAux acc s, ∀ c ∈ line, isLineBoundaryChar c = false := by
  induction acc, s using splitlinesAux.induct with
  | case1 =>
    intro _ line hl
    simp [splitlinesAux] at hl
  | case2 acc hne =>
    intro hacc line hl c hc
    simp only [splitlinesAux, if_neg hne, List.mem_singleton] at hl
    subst hl
    exact hacc c (List.mem_reverse.mp hc)
  | case3 acc rest2 ih =>
    intro hacc line hl
    simp [splitlinesAux] at hl
    rcases hl with h | h
    · subst h
      exact fun c hc => hacc c (List.mem_reverse.mp hc)
    · exact ih (by intro c hc; cases hc) line h
  | case4 acc c2 rest2 hne ih =>
    intro hacc line hl
    simp [splitlinesAux, hne] at hl
    rcases hl with h | h
    · subst h
      exact fun c hc => hacc c (List.mem_reverse.mp hc)
    · exact ih (by intro c hc; cases hc) line h
  | case5 acc ih =>
    intro hacc line hl
    simp [splitlinesAux] at hl
    subst hl
    exact fun c hc => hacc c (List.mem_reverse.mp hc)
  | case6 acc c rest hcr hb ih =>
    intro hacc line hl
    cases rest with
    | nil =>
      simp [splitlinesAux, hcr, hb] at hl
      subst hl
      exact fun c2 hc => hacc c2 (List.mem_reverse.mp hc)
    | cons c2 r2 =>
      simp [splitlinesAux, hcr, hb] at hl
      rcases hl with h | h
      · subst h
        exact fun c3 hc => hacc c3 (List.mem_reverse.mp hc)
      · exact ih (by intro c3 hc; cases hc) line h
  | case7 acc c rest hcr hb ih =>
    intro hacc line hl
    have hrec : line ∈ splitlinesAux (c :: acc) rest := by
      cases rest with
      | nil => simpa [splitlinesAux, hcr, hb] using hl
      | cons c2 r2 => simpa [splitlinesAux, hcr, hb] using hl
    refine ih ?_ line hrec
    intro c2 hc
    rcases List.mem_cons.mp hc with h | h
    · subst h
      exact Bool.not_eq_true _ |>.mp hb
    · exact hacc c2 h

/-- C8: in pipe mode the compiled text is flattened — all lines concatenated
with no separator, leaving no line-boundary character — exactly when the
command path contains `deno`, and is passed through unmodified otherwise. -/
theorem deno_pipe_input_flattening :
    ∀ (cmd : List Str) (input : Str),
      (containsSub (str "deno") (cmd.headD []) = true →
        pipeInput cmd input = (pySplitlines input).flatten ∧
        ∀ c ∈ pipeInput cmd input, isLineBoundaryChar c = false) ∧
      (containsSub (str "deno") (cmd.headD []) = false →
        pipeInput cmd input = input) := by
  intro cmd input
  constructor
  · intro hdeno
    have he : pipeInput cmd input = (pySplitlines input).flatten := by
      simp only [pipeInput]
      rw [hdeno]
      simp
    refine ⟨he, ?_⟩
    rw [he]
    intro c hc
    rcases List.mem_flatten.mp hc with ⟨line, hline, hcl⟩
    exact splitlinesAux_no_boundary [] input (by intro x hx; cases hx) line hline c hcl
  · intro hdeno
    simp only [pipeInput]
    rw [hdeno]
    simp

/-- Witness for C8: a deno command flattens a two-line program, a node
command passes it through. -/
theorem deno_pipe_input_flattening_witness :
    (containsSub (str "deno") ([str "deno"].headD []) = true ∧
      (pipeInput [str "deno"] (str "a\nb") = (pySplitlines (str "a\nb")).flatten ∧
        ∀ c ∈ pipeInput [str "deno"] (str "a\nb"), isLineBoundaryChar c = false)) ∧
    (containsSub (str "deno") ([str "node"].headD []) = false ∧
      pipeInput [str "node"] (str "a\nb") = str "a\nb") :=
  ⟨⟨by decide, (deno_pipe_input_flattening [str "deno"] (str "a\nb")).1 (by decide)⟩,
   ⟨by decide, (deno_pipe_input_flattening [str "node"] (str "a\nb")).2 (by decide)⟩⟩

theorem expectSplit_first (pat : Str) :
    ∀ (s before after : Str), expectSplit pat s = some (before, after) →
      s = before ++ pat ++ after ∧
      ∀ i, i < before.length → matchesAt pat s i = false := by
  intro s
  induction s with
  | nil => intro b a h; cases h
  | cons c r ih =>
    intro b a h
    by_cases hp : pat.isPrefixOf (c :: r)
    · simp only [expectSplit, if_pos hp] at h
      injection h with h2
      obtain ⟨t, ht⟩ := List.isPrefixOf_iff_prefix.mp hp
      have hb : b = [] := (congrArg Prod.fst h2).symm
      have ha : a = (c :: r).drop pat.length := (congrArg Prod.snd h2).symm
      subst hb
      constructor
      · rw [ha, ← ht, List.drop_left]
        simp
      · intro i hi
        cases hi
    · simp only [expectSplit, if_neg hp] at h
      rcases Option.map_eq_some'.mp h with ⟨p, hps, hpe⟩
      have hb : b = c :: p.1 := (congrArg Prod.fst hpe).symm
      have ha : a = p.2 := (congrArg Prod.snd hpe).symm
      obtain ⟨hs, hfirst⟩ := ih p.1 p.2 hps
      subst hb
      subst ha
      constructor
      · simpa using hs
      · intro i hi
        match i with
        | 0 =>
          simp [matchesAt]
          exact Bool.not_eq_true _ |>.mp hp
        | j + 1 =>
          have : j < p.1.length := by simpa using hi
          simpa [matchesAt, List.drop_succ_cons] using hfirst j this

/-- C6: session-mode execution sends the compiled statement with the
sentinel line appended as one submission, the raw output is exactly the
stream content received before the first occurrence of the sentinel, and
that output is handed to the result extractor. -/
theorem session_sentinel_delimits_output :
    ∀ (ctx : Context) (linesep stream source pre : Str),
      (ctx.exec_with_session linesep stream source).1 =
        ctx.compile source ++ str "\n" ++ sessionSentinel ++ linesep ∧
      ((ctx.exec_with_session linesep stream source).2 = Except.ok pre →
        (∃ post, stream = pre ++ sessionSentinel ++ post) ∧
        ∀ i, i < pre.length → matchesAt sessionSentinel stream i = false) ∧
      ((ctx.exec_with_session linesep stream
            (Context.exec_source ctx.header source)).2 = Except.ok pre →
        ctx.run_session linesep stream source =
          (match extract_result pre with
           | Except.error e => Except.error (EvalError.extract e)
           | Except.ok v => Except.ok v)) := by
  intro ctx linesep stream source pre
  refine ⟨rfl, ?_, ?_⟩
  · intro h
    simp only [Context.exec_with_session] at h
    rcases he : expectSplit sessionSentinel stream with _ | p
    · rw [he] at h; cases h
    · rw [he] at h
      injection h with h2
      obtain ⟨hs, hfirst⟩ := expectSplit_first sessionSentinel stream p.1 p.2 he
      subst h2
      exact ⟨⟨p.2, hs⟩, hfirst⟩
  · intro h
    simp only [Context.run_session, h]

/-- Witness for C6: a concrete session round trip whose pre-sentinel output
decodes to the value 2. -/
theorem session_sentinel_delimits_output_witness :
    ((Context.exec_with_session ⟨str "#{source}", str "J", str ""⟩ (str "\n")
          (str "[\x22ok\x22, 2]\n//!!@@##x") (str "1")).1 =
        Context.compile ⟨str "#{source}", str "J", str ""⟩ (str "1") ++
          str "\n" ++ sessionSentinel ++ str "\n") ∧
    ((∃ post, str "[\x22ok\x22, 2]\n//!!@@##x" =
          str "[\x22ok\x22, 2]\n" ++ sessionSentinel ++ post) ∧
      ∀ i, i < (str "[\x22ok\x22, 2]\n").length →
        matchesAt sessionSentinel (str "[\x22ok\x22, 2]\n//!!@@##x") i = false) ∧
    ((Context.exec_with_session ⟨str "#{source}", str "J", str ""⟩ (str "\n")
          (str "[\x22ok\x22, 2]\n//!!@@##x")
          (Context.exec_source (str "") (str "1"))).2 =
        Except.ok (str "[\x22ok\x22, 2]\n") ∧
      Context.run_session ⟨str "#{source}", str "J", str ""⟩ (str "\n")
          (str "[\x22ok\x22, 2]\n//!!@@##x") (str "1") =
        Except.ok (JVal.num 2)) :=
  ⟨(session_sentinel_delimits_output ⟨str "#{source}", str "J", str ""⟩
      (str "\n") (str "[\x22ok\x22, 2]\n//!!@@##x") (str "1")
      (str "[\x22ok\x22, 2]\n")).1,
   (session_sentinel_delimits_output ⟨str "#{source}", str "J", str ""⟩
      (str "\n") (str "[\x22ok\x22, 2]\n//!!@@##x") (str "1")
      (str "[\x22ok\x22, 2]\n")).2.1 rfl,
   rfl,
   (session_sentinel_delimits_output ⟨str "#{source}", str "J", str ""⟩
      (str "\n") (str "[\x22ok\x22, 2]\n//!!@@##x") (str "1")
      (str "[\x22ok\x22, 2]\n")).2.2 rfl⟩

theorem renderPieces_cons (src enc j2 : Str) (p : Piece) (ps : List Piece) :
    renderPieces src enc j2 (p :: ps) =
      renderPiece src enc j2 p ++ renderPieces src enc j2 ps := by
  simp [renderPieces]

theorem renderPieces_map_lit (src enc j2 : Str) (s : Str) :
    renderPieces src enc j2 (s.map Piece.lit) = s := by
  induction s with
  | nil => rfl
  | cons c r ih => simpa [renderPieces, renderPiece] using ih

theorem substFuel_eq_render (src enc j2 : Str) :
    ∀ (fuel : Nat) (s : Str),
      substFuel src enc j2 fuel s =
        renderPieces src enc j2 (tokenizeFuel fuel s) := by
  intro fuel
  induction fuel with
  | zero =>
    intro s
    cases s with
    | nil => simp [substFuel, tokenizeFuel, renderPieces]
    | cons c r =>
      simp only [substFuel, tokenizeFuel]
      exact (renderPieces_map_lit src enc j2 (c :: r)).symm
  | succ fuel ih =>
    intro s
    cases s with
    | nil => simp [substFuel, tokenizeFuel, renderPieces]
    | cons c r =>
      by_cases h1 : (str "#{source}").isPrefixOf (c :: r)
      · simp [substFuel, tokenizeFuel, h1, renderPieces_cons, renderPiece, ih]
      · by_cases h2 : (str "#{encoded_source}").isPrefixOf (c :: r)
        · simp [substFuel, tokenizeFuel, h1, h2, renderPieces_cons, renderPiece, ih]
        · by_cases h3 : (str "#{json2_source}").isPrefixOf (c :: r)
          · simp [substFuel, tokenizeFuel, h1, h2, h3, renderPieces_cons,
              renderPiece, ih]
          · simp [substFuel, tokenizeFuel, h1, h2, h3, renderPieces_cons,
              renderPiece, ih]

theorem substFuel_id_of_no_token (src enc j2 : Str) :
    ∀ (fuel : Nat) (s : Str), containsToken s = false →
      substFuel src enc j2 fuel s = s := by
  intro fuel
  induction fuel with
  | zero => intro s _; cases s <;> simp [substFuel]
  | succ fuel ih =>
    intro s h
    cases s with
    | nil => simp [substFuel]
    | cons c r =>
      simp only [containsToken, placeholderTokens, List.any_cons, List.any_nil,
        Bool.or_eq_false_iff, containsSub] at h
      obtain ⟨⟨hp1, hr1⟩, ⟨⟨hp2, hr2⟩, ⟨⟨hp3, hr3⟩, -⟩⟩⟩ := h
      have hr : containsToken r = false := by
        simp only [containsToken, placeholderTokens, List.any_cons, List.any_nil,
          Bool.or_eq_false_iff]
        exact ⟨hr1, ⟨hr2, ⟨hr3, trivial⟩⟩⟩
      simp [substFuel, hp1, hp2, hp3, ih r hr]

/-- C3 counterexample: when the substituted value itself contains a
recognized placeholder, that placeholder stands unresolved in the output —
compiling the template `#{source}` with the snippet `#{json2_source}` leaves
`#{json2_source}` in the result. -/
theorem compile_can_leave_placeholder_in_output :
    containsToken
        (Context.compile ⟨str "#{source}", str "J", str ""⟩
          (str "#{json2_source}")) = true := by
  decide

/-- C3 amended: template compilation is a single greedy left-to-right scan
that replaces each placeholder occurrence it finds exactly once — trying the
three placeholders in table order at every position — copies all other text
unchanged, and never rescans substituted text; consequently a template
without placeholder tokens compiles to itself, while a placeholder can
reappear in the output only through a substituted value. -/
theorem compile_is_single_scan_substitution :
    ∀ (ctx : Context) (source : Str),
      ctx.compile source =
        renderPieces source (encodedSource source) ctx.json2source
          (tokenize ctx.runner_source) ∧
      (containsToken ctx.runner_source = false →
        ctx.compile source = ctx.runner_source) := by
  intro ctx source
  constructor
  · exact substFuel_eq_render source (encodedSource source) ctx.json2source
      ctx.runner_source.length ctx.runner_source
  · intro h
    exact substFuel_id_of_no_token source (encodedSource source) ctx.json2source
      ctx.runner_source.length ctx.runner_source h

/-- Witness for C3 at a concrete token-free template. -/
theorem compile_is_single_scan_substitution_witness :
    Context.compile ⟨str "var x;", str "J", str ""⟩ (str "1+1") =
      renderPieces (str "1+1") (encodedSource (str "1+1")) (str "J")
        (tokenize (str "var x;")) ∧
    (containsToken (str "var x;") = false ∧
      Context.compile ⟨str "var x;", str "J", str ""⟩ (str "1+1") =
        str "var x;") :=
  ⟨(compile_is_single_scan_substitution ⟨str "var x;", str "J", str ""⟩
      (str "1+1")).1,
   by decide,
   (compile_is_single_scan_substitution ⟨str "var x;", str "J", str ""⟩
      (str "1+1")).2 (by decide)⟩

theorem findSome?_guard {α β : Type} (f : α → β) (p : β → Bool) (l : List α) :
    (l.findSome? fun a => if p (f a) then some (f a) else none) =
      (l.map f).find? p := by
  induction l with
  | nil => rfl
  | cons a t ih =>
    simp only [List.findSome?_cons, List.map_cons, List.find?]
    cases hp : p (f a) <;> simp [hp, ih]

theorem findSome?_find?_flatten {α β : Type} (h : α → List β) (p : β → Bool)
    (l : List α) :
    (l.findSome? fun a => (h a).find? p) = ((l.map h).flatten).find? p := by
  induction l with
  | nil => rfl
  | cons a t ih =>
    simp only [List.findSome?_cons, List.map_cons, List.flatten_cons,
      List.find?_append]
    cases hf : (h a).find? p <;> simp [hf, ih, Option.or]

theorem find_executable_eq_spec (statf : Str → Option Nat) (pathEnv : Str)
    (pathSep dirSep : Char) (prog : Str) (pathext : List Str) :
    find_executable statf pathEnv pathSep dirSep prog pathext =
      find_executable_spec statf pathEnv pathSep dirSep prog pathext := by
  unfold find_executable find_executable_spec
  have hinner : ∀ dir : Str,
      (pathext.findSome? fun ext =>
        match statf (joinPath dirSep dir (prog ++ ext)) with
        | none => none
        | some mode =>
          if okMode mode then some (joinPath dirSep dir (prog ++ ext)) else none) =
      (pathext.map fun ext => joinPath dirSep dir (prog ++ ext)).find?
        (statOk statf) := by
    intro dir
    rw [← findSome?_guard (fun ext => joinPath dirSep dir (prog ++ ext))
      (statOk statf) pathext]
    congr 1
    funext ext
    split
    · next h => simp [statOk, h]
    · next mode h => simp [statOk, h]
  calc ((splitOnChar pathSep pathEnv).findSome? fun dir =>
          pathext.findSome? fun ext =>
            match statf (joinPath dirSep dir (prog ++ ext)) with
            | none => none
            | some mode =>
              if okMode mode then some (joinPath dirSep dir (prog ++ ext))
              else none)
      = (splitOnChar pathSep pathEnv).findSome? fun dir =>
          ((pathext.map fun ext => joinPath dirSep dir (prog ++ ext)).find?
            (statOk statf)) := by
        congr 1
        funext dir
        exact hinner dir
    _ = _ := by
        rw [findSome?_find?_flatten
          (fun dir => pathext.map fun ext => joinPath dirSep dir (prog ++ ext))
          (statOk statf) (splitOnChar pathSep pathEnv)]

/-- C5 counterexample: the regular-file/execute-bit requirement is not
limited to the non-Windows family.  On a Windows-style search (extension
`.EXE` from `PATHEXT`), a candidate that exists with mode `0o100666` (a
regular file with no execute bit) is rejected by the code, while the claim's
existence-only Windows probe would return it. -/
theorem probe_exec_bit_checked_on_windows_counterexample :
    find_executable
        (fun f => if f = str "C:\\bin\\node.EXE" then some 0o100666 else none)
        (str "C:\\bin") ';' '\\' (str "node") [str ".EXE"] = none ∧
    find_executable_claim true
        (fun f => if f = str "C:\\bin\\node.EXE" then some 0o100666 else none)
        (str "C:\\bin") ';' '\\' (str "node") [str ".EXE"] =
      some (str "C:\\bin\\node.EXE") := by
  constructor <;> decide

/-- C5 amended: the probe walks the `PATH` directories in listed order (and,
within a directory, the extensions in listed order) and returns the first
candidate that is a regular file with at least one execute permission bit —
this test applies on both platform families; the Windows family additionally
supplies the `PATHEXT` extensions (appended to the candidate name), the
other family the single empty extension, and `_which` appends the fixed
arguments to the resolved path (treating an empty path as unresolved). -/
theorem probe_first_match_with_exec_bit :
    ∀ (statf : Str → Option Nat) (pathEnv : Str) (pathSep dirSep : Char)
      (prog : Str) (pathext : List Str),
      find_executable statf pathEnv pathSep dirSep prog pathext =
        find_executable_spec statf pathEnv pathSep dirSep prog pathext ∧
      (∀ (isWindows : Bool) (pathextEnv : Str) (args : List Str),
        pyWhich isWindows statf pathEnv pathSep dirSep pathextEnv
            (Sum.inr (prog :: args)) =
          match
            find_executable statf pathEnv pathSep dirSep prog
              (if isWindows then splitOnChar pathSep pathextEnv else [[]]) with
          | none => none
          | some p => if p = [] then none else some (p :: args)) := by
  intro statf pathEnv pathSep dirSep prog pathext
  refine ⟨find_executable_eq_spec statf pathEnv pathSep dirSep prog pathext, ?_⟩
  intro isWindows pathextEnv args
  cases isWindows <;> rfl

theorem printable_toHexDigit (n : Nat) (h : n < 16) :
    isPrintableAscii (toHexDigit n) = true := by
  interval_cases n <;> decide

theorem printable_mem_uEscape (n : Nat) :
    ∀ c ∈ uEscape n, isPrintableAscii c = true := by
  intro c hc
  simp [uEscape, toHex4] at hc
  rcases hc with rfl | rfl | rfl | rfl | rfl | rfl
  · decide
  · decide
  · exact printable_toHexDigit _ (Nat.mod_lt _ (by norm_num))
  · exact printable_toHexDigit _ (Nat.mod_lt _ (by norm_num))
  · exact printable_toHexDigit _ (Nat.mod_lt _ (by norm_num))
  · exact printable_toHexDigit _ (Nat.mod_lt _ (by norm_num))

theorem printable_mem_uEscapeChar (c : Char) :
    ∀ x ∈ uEscapeChar c, isPrintableAscii x = true := by
  intro x hx
  unfold uEscapeChar at hx
  split at hx
  · exact printable_mem_uEscape _ x hx
  · rcases List.mem_append.mp hx with h | h
    · exact printable_mem_uEscape _ x h
    · exact printable_mem_uEscape _ x h

theorem printable_mem_escapeJsonChar (c : Char) :
    ∀ x ∈ escapeJsonChar c, isPrintableAscii x = true := by
  intro x hx
  unfold escapeJsonChar at hx
  split_ifs at hx with h1 h2 h3 h4 h5 h6 h7 h8
  · simp at hx; rcases hx with rfl | rfl <;> decide
  · simp at hx; subst hx; decide
  · simp at hx; rcases hx with rfl | rfl <;> decide
  · simp at hx; rcases hx with rfl | rfl <;> decide
  · simp at hx; rcases hx with rfl | rfl <;> decide
  · simp at hx; rcases hx with rfl | rfl <;> decide
  · simp at hx; rcases hx with rfl | rfl <;> decide
  · exact printable_mem_uEscapeChar c x hx
  · simp at hx
    subst hx
    simp only [isPrintableAscii]
    push_neg at h8
    simp only [decide_eq_true_eq, Bool.and_eq_true]
    omega

theorem printable_mem_jsonDumpsStr (s : Str) :
    ∀ x ∈ jsonDumpsStr s, isPrintableAscii x = true := by
  intro x hx
  simp only [jsonDumpsStr, List.mem_cons, List.mem_append, List.mem_flatten,
    List.mem_map, List.mem_singleton] at hx
  rcases hx with (rfl | ⟨l, ⟨c, _, rfl⟩, hxl⟩) | (rfl | h0)
  · decide
  · exact printable_mem_escapeJsonChar c x hxl
  · decide
  · cases h0

/-- C7: the `#{encoded_source}` placeholder is substituted by the snippet —
wrapped as the immediately-invoked function `(function(){ ... })()` — after
re-encoding it as a double-quoted JSON string literal; every character
outside the printable ASCII range is escaped as a `\uXXXX` escape by the
codepoint encoder, and every character of the substituted literal lies in
the printable ASCII range. -/
theorem encoded_source_is_ascii_json_literal :
    ∀ (j2 hdr source : Str),
      Context.compile ⟨str "#{encoded_source}", j2, hdr⟩ source =
        jsonDumpsStr (str "(function()\x7b " ++ encodeUnicodeCodepoints source ++
          str " \x7d)()") ∧
      (∀ (c : Char) (rest : Str), isPrintableAscii c = false →
        encodeUnicodeCodepoints (c :: rest) =
          uEscapeChar c ++ encodeUnicodeCodepoints rest) ∧
      (∀ c ∈ encodedSource source, isPrintableAscii c = true) := by
  intro j2 hdr source
  refine ⟨?_, ?_, ?_⟩
  · exact (rfl :
      Context.compile ⟨str "#{encoded_source}", j2, hdr⟩ source =
        encodedSource source ++ []).trans (List.append_nil _)
  · intro c rest h
    have h2 : ¬ (0x20 ≤ c.toNat ∧ c.toNat ≤ 0x7e) := by
      simp [isPrintableAscii] at h
      omega
    simp [encodeUnicodeCodepoints, h2]
  · intro c hc
    exact printable_mem_jsonDumpsStr _ c hc

/-- Witness for C7 at the snippet `1`, the non-ASCII character `é`
(codepoint 233) and the printable character `(`. -/
theorem encoded_source_is_ascii_json_literal_witness :
    Context.compile ⟨str "#{encoded_source}", str "J", str ""⟩ (str "1") =
      jsonDumpsStr (str "(function()\x7b " ++ encodeUnicodeCodepoints (str "1") ++
        str " \x7d)()") ∧
    (isPrintableAscii (Char.ofNat 233) = false ∧
      encodeUnicodeCodepoints (Char.ofNat 233 :: str "x") =
        uEscapeChar (Char.ofNat 233) ++ encodeUnicodeCodepoints (str "x")) ∧
    ('(' ∈ encodedSource (str "1") ∧ isPrintableAscii '(' = true) :=
  ⟨(encoded_source_is_ascii_json_literal (str "J") (str "") (str "1")).1,
   ⟨by decide,
    (encoded_source_is_ascii_json_literal (str "J") (str "") (str "1")).2.1
      (Char.ofNat 233) (str "x") (by decide)⟩,
   ⟨by decide,
    (encoded_source_is_ascii_json_literal (str "J") (str "") (str "1")).2.2
      '(' (by decide)⟩⟩

theorem hexVal_toHexDigit (d : Nat) (h : d < 16) :
    hexVal (toHexDigit d) = some d := by
  interval_cases d <;> decide

theorem hex4_toHex4 (n : Nat) (h : n < 0x10000) :
    hex4 (toHexDigit (n / 4096 % 16)) (toHexDigit (n / 256 % 16))
      (toHexDigit (n / 16 % 16)) (toHexDigit (n % 16)) = some n := by
  have h1 := hexVal_toHexDigit (n / 4096 % 16) (Nat.mod_lt _ (by norm_num))
  have h2 := hexVal_toHexDigit (n / 256 % 16) (Nat.mod_lt _ (by norm_num))
  have h3 := hexVal_toHexDigit (n / 16 % 16) (Nat.mod_lt _ (by norm_num))
  have h4 := hexVal_toHexDigit (n % 16) (Nat.mod_lt _ (by norm_num))
  simp [hex4, h1, h2, h3, h4]
  omega

theorem lexUnicodeEsc_single (n : Nat) (rest : Str) (hlt : n < 0x10000)
    (hsur : ¬ (0xd800 ≤ n ∧ n ≤ 0xdfff)) :
    lexUnicodeEsc (toHex4 n ++ rest) = some (Char.ofNat n, rest) := by
  simp only [toHex4, List.cons_append, List.nil_append, lexUnicodeEsc]
  rw [hex4_toHex4 n hlt]
  have h1 : ¬ (0xd800 ≤ n ∧ n ≤ 0xdbff) := by omega
  have h2 : ¬ (0xdc00 ≤ n ∧ n ≤ 0xdfff) := by omega
  simp only [Option.some_bind, if_neg h1, if_neg h2]

theorem lexLowSurrogate_spec (n m : Nat) (rest : Str)
    (hm : 0xdc00 ≤ m ∧ m ≤ 0xdfff) (hmlt : m < 0x10000) :
    lexLowSurrogate n ('\\' :: 'u' :: toHexDigit (m / 4096 % 16) ::
        toHexDigit (m / 256 % 16) :: toHexDigit (m / 16 % 16) ::
        toHexDigit (m % 16) :: rest) =
      some (Char.ofNat (0x10000 + (n - 0xd800) * 0x400 + (m - 0xdc00)), rest) := by
  simp only [lexLowSurrogate]
  rw [hex4_toHex4 m hmlt]
  simp only [and_self, if_true, Option.some_bind, if_pos hm]

theorem lexUnicodeEsc_pair (n : Nat) (rest : Str) (hge : 0x10000 ≤ n)
    (hlt : n < 0x110000) :
    lexUnicodeEsc (toHex4 (0xd800 + (n - 0x10000) / 0x400) ++
        ('\\' :: 'u' :: (toHex4 (0xdc00 + (n - 0x10000) % 0x400) ++ rest))) =
      some (Char.ofNat n, rest) := by
  have hmod := Nat.mod_lt (n - 0x10000) (show 0 < 0x400 by norm_num)
  have hhi : 0xd800 + (n - 0x10000) / 0x400 < 0x10000 := by omega
  have hlo : 0xdc00 + (n - 0x10000) % 0x400 < 0x10000 := by omega
  have h1 : 0xd800 ≤ 0xd800 + (n - 0x10000) / 0x400 ∧
      0xd800 + (n - 0x10000) / 0x400 ≤ 0xdbff := by omega
  have h2 : 0xdc00 ≤ 0xdc00 + (n - 0x10000) % 0x400 ∧
      0xdc00 + (n - 0x10000) % 0x400 ≤ 0xdfff := by omega
  have harith : 0x10000 + (0xd800 + (n - 0x10000) / 0x400 - 0xd800) * 0x400 +
      (0xdc00 + (n - 0x10000) % 0x400 - 0xdc00) = n := by omega
  conv_lhs =>
    rw [show toHex4 (0xd800 + (n - 0x10000) / 0x400) ++
        ('\\' :: 'u' :: (toHex4 (0xdc00 + (n - 0x10000) % 0x400) ++ rest)) =
      (toHex4 (0xd800 + (n - 0x10000) / 0x400)).append
        ('\\' :: 'u' :: (toHex4 (0xdc00 + (n - 0x10000) % 0x400) ++ rest)) from rfl]
  simp only [toHex4, List.append_eq, List.cons_append, List.nil_append,
    lexUnicodeEsc]
  rw [hex4_toHex4 _ hhi]
  rw [Option.some_bind, if_pos h1, lexLowSurrogate_spec _ _ _ h2 hlo, harith]

theorem lexStringBody_escape_step (c : Char) (fuel : Nat) (rest : Str) :
    lexStringBody (fuel + 1) (escapeJsonChar c ++ rest) =
      (lexStringBody fuel rest).map fun q => (c :: q.1, q.2) := by
  by_cases h1 : c = '"'
  · subst h1; simp [escapeJsonChar, lexStringBody, readEscape]
  by_cases h2 : c = '\\'
  · subst h2; simp [escapeJsonChar, lexStringBody, readEscape]
  by_cases h3 : c = '\n'
  · subst h3; simp [escapeJsonChar, lexStringBody, readEscape]
  by_cases h4 : c = '\r'
  · subst h4; simp [escapeJsonChar, lexStringBody, readEscape]
  by_cases h5 : c = '\t'
  · subst h5; simp [escapeJsonChar, lexStringBody, readEscape]
  by_cases h6 : c = '\x08'
  · subst h6; simp [escapeJsonChar, lexStringBody, readEscape]
  by_cases h7 : c = '\x0c'
  · subst h7; simp [escapeJsonChar, lexStringBody, readEscape]
  by_cases h8 : c.toNat < 0x20 ∨ 0x7e < c.toNat
  · have hesc : escapeJsonChar c = uEscapeChar c := by
      simp [escapeJsonChar, h1, h2, h3, h4, h5, h6, h7, h8]
    rw [hesc]
    have hv : c.toNat < 0xd800 ∨ (0xdfff < c.toNat ∧ c.toNat < 0x110000) :=
      c.valid
    by_cases hbmp : c.toNat < 0x10000
    · have hsur : ¬ (0xd800 ≤ c.toNat ∧ c.toNat ≤ 0xdfff) := by
        rcases hv with h | h <;> omega
      have hu : uEscapeChar c = '\\' :: 'u' :: toHex4 c.toNat := by
        simp [uEscapeChar, uEscape, hbmp]
      rw [hu]
      have hstep : ('\\' :: 'u' :: toHex4 c.toNat) ++ rest =
          '\\' :: 'u' :: (toHex4 c.toNat ++ rest) := by simp
      rw [hstep]
      simp only [lexStringBody, readEscape]
      norm_num
      rw [lexUnicodeEsc_single c.toNat rest hbmp hsur, Char.ofNat_toNat]
      simp [Option.some_bind]
    · have hge : 0x10000 ≤ c.toNat := by omega
      have hlt2 : c.toNat < 0x110000 := by rcases hv with h | h <;> omega
      have hu : uEscapeChar c =
          ('\\' :: 'u' :: toHex4 (0xd800 + (c.toNat - 0x10000) / 0x400)) ++
            ('\\' :: 'u' :: toHex4 (0xdc00 + (c.toNat - 0x10000) % 0x400)) := by
        simp [uEscapeChar, uEscape, hbmp]
      rw [hu]
      have hstep : (('\\' :: 'u' :: toHex4 (0xd800 + (c.toNat - 0x10000) / 0x400)) ++
            ('\\' :: 'u' :: toHex4 (0xdc00 + (c.toNat - 0x10000) % 0x400))) ++ rest =
          '\\' :: 'u' :: (toHex4 (0xd800 + (c.toNat - 0x10000) / 0x400) ++
            ('\\' :: 'u' :: (toHex4 (0xdc00 + (c.toNat - 0x10000) % 0x400) ++ rest))) := by
        simp
      rw [hstep]
      simp only [lexStringBody, readEscape]
      norm_num
      rw [lexUnicodeEsc_pair c.toNat rest hge hlt2, Char.ofNat_toNat]
      simp [Option.some_bind]
  · have hesc : escapeJsonChar c = [c] := by
      simp [escapeJsonChar, h1, h2, h3, h4, h5, h6, h7, h8]
    rw [hesc]
    push_neg at h8
    have hc1 : ¬ c.toNat < 0x20 := by omega
    simp only [List.cons_append, List.nil_append, lexStringBody, if_neg h1,
      if_neg h2, if_neg hc1]
    simp

theorem escapeJsonChar_length_pos (c : Char) : 0 < (escapeJsonChar c).length := by
  unfold escapeJsonChar
  split_ifs <;> first
    | simp
    | (unfold uEscapeChar; split_ifs <;> simp [uEscape, toHex4])

theorem length_le_flatten_escape (s : Str) :
    s.length ≤ ((s.map escapeJsonChar).flatten).length := by
  induction s with
  | nil => simp
  | cons c t ih =>
    simp only [List.map_cons, List.flatten_cons, List.length_append,
      List.length_cons]
    have := escapeJsonChar_length_pos c
    omega

theorem lexStringBody_dumps (s : Str) :
    ∀ (fuel : Nat) (rest : Str), s.length + 1 ≤ fuel →
      lexStringBody fuel ((s.map escapeJsonChar).flatten ++ '"' :: rest) =
        some (s, rest) := by
  induction s with
  | nil =>
    intro fuel rest hf
    match fuel, hf with
    | f + 1, _ => simp [lexStringBody]
  | cons c t ih =>
    intro fuel rest hf
    match fuel, hf with
    | f + 1, hf =>
      simp only [List.map_cons, List.flatten_cons, List.append_assoc]
      rw [lexStringBody_escape_step c f ((t.map escapeJsonChar).flatten ++ '"' :: rest)]
      rw [ih f rest (by simp at hf; omega)]
      rfl

theorem decodeStringLit_dumps (s : Str) :
    decodeStringLit (jsonDumpsStr s) = some s := by
  have hform : jsonDumpsStr s = '"' :: ((s.map escapeJsonChar).flatten ++ '"' :: []) := by
    simp [jsonDumpsStr]
  rw [hform]
  simp only [decodeStringLit]
  rw [lexStringBody_dumps s _ [] (by
    have h := length_le_flatten_escape s
    rw [List.length_append]
    simp only [List.length_cons, List.length_nil]
    omega)]
  simp

/-- C10: a source that is empty or whitespace-only makes `_eval` execute
`return eval('')`; any other source is JSON-escaped into a pure-ASCII
double-quoted literal and parenthesized, so the program text is
`return eval('('+<literal>+')')` — and the literal decodes back to exactly
the original snippet, so the engine evaluates `(` + snippet + `)`. -/
theorem eval_blank_source_and_paren_wrapping :
    ∀ source : Str,
      (pyStrip source = [] →
        Context.eval_code source = str "return eval(\x27\x27)") ∧
      (pyStrip source ≠ [] →
        Context.eval_code source =
          str "return eval(\x27(\x27+" ++ jsonDumpsStr source ++
            str "+\x27)\x27)" ∧
        (∀ c ∈ jsonDumpsStr source, isPrintableAscii c = true) ∧
        decodeStringLit (jsonDumpsStr source) = some source) := by
  intro source
  constructor
  · intro h
    simp [Context.eval_code, h]
  · intro h
    refine ⟨by simp [Context.eval_code, h], ?_, decodeStringLit_dumps source⟩
    intro c hc
    exact printable_mem_jsonDumpsStr source c hc

/-- Witness for C10 at the whitespace-only source `" \t"` and the snippet
`1+1`. -/
theorem eval_blank_source_and_paren_wrapping_witness :
    (pyStrip (str " \t") = [] ∧
      Context.eval_code (str " \t") = str "return eval(\x27\x27)") ∧
    (pyStrip (str "1+1") ≠ [] ∧
      (Context.eval_code (str "1+1") =
          str "return eval(\x27(\x27+" ++ jsonDumpsStr (str "1+1") ++
            str "+\x27)\x27)" ∧
        (∀ c ∈ jsonDumpsStr (str "1+1"), isPrintableAscii c = true) ∧
        decodeStringLit (jsonDumpsStr (str "1+1")) = some (str "1+1"))) :=
  ⟨⟨by decide, (eval_blank_source_and_paren_wrapping (str " \t")).1 (by decide)⟩,
   ⟨by decide, (eval_blank_source_and_paren_wrapping (str "1+1")).2 (by decide)⟩⟩

theorem normalizeNewlines_eq_spec : ∀ s : Str, normalizeNewlines s = normalizeSpec s := by
  intro s
  induction s using normalizeSpec.induct with
  | case1 => rfl
  | case2 rest2 ih =>
    simp only [normalizeNewlines, replaceCrLf, replaceCr, normalizeSpec] at *
    simp [ih]
  | case3 c2 rest2 hne ih =>
    simp only [normalizeNewlines] at *
    simp [replaceCrLf, replaceCr, normalizeSpec, hne, ih]
  | case4 => rfl
  | case5 c rest hne ih =>
    simp only [normalizeNewlines] at *
    cases rest with
    | nil => simp [replaceCrLf, replaceCr, normalizeSpec, hne]
    | cons c2 r2 => simp [replaceCrLf, replaceCr, normalizeSpec, hne, ih]

theorem head?_filter_eq_find? {α : Type} (p : α → Bool) (m : List α) :
    (m.filter p).head? = m.find? p := by
  induction m with
  | nil => rfl
  | cons a t ih =>
    cases hp : p a <;> simp [List.filter_cons, List.find?, hp, ih]

theorem getLast?_filter_eq_find?_reverse {α : Type} (p : α → Bool) (l : List α) :
    (l.filter p).getLast? = l.reverse.find? p := by
  rw [List.getLast?_eq_head?_reverse, ← List.filter_reverse]
  exact head?_filter_eq_find? p l.reverse

theorem interpretResultLine_eq_amended (ret : JVal) :
    interpretResultLine ret = interpretResultLineAmended ret := by
  unfold interpretResultLine interpretResultLineAmended
  by_cases hlen : jvalLen ret = some 1
  · rw [if_pos hlen, hlen]
    cases hi : jvalIndex0 ret with
    | none => rfl
    | some first => rfl
  · rw [if_neg hlen]
    have hfall :
        (match jvalLen ret with
         | some 1 => (jvalIndex0 ret).map fun first => [first, JVal.null]
         | _ => jvalElems ret : Option (List JVal)) = jvalElems ret := by
      cases hjl : jvalLen ret with
      | none => rfl
      | some k =>
        match k with
        | 0 => rfl
        | 1 => exact absurd hjl hlen
        | k + 2 => rfl
    rw [hfall]

theorem resultFromLine_eq_amended (line : Str) :
    resultFromLine line = resultFromLineAmended line := by
  unfold resultFromLine resultFromLineAmended
  cases hj : jsonLoads line with
  | none => rfl
  | some ret => exact interpretResultLine_eq_amended ret

/-- C1 counterexample: the selected line need not be a JSON array — on the
raw output `"o]"` (a JSON string literal) the code still unpacks the
two-character string and raises `ProgramError` carrying `"]"`, whereas the
claim's decode-as-an-array reading makes this a decoding failure. -/
theorem extract_result_not_array_only :
    extract_result (str "\x22o]\x22") =
      Except.error (ExtractError.programError (JVal.jstr (str "]"))) ∧
    extract_result_claim (str "\x22o]\x22") =
      Except.error ExtractError.jsonDecodeError :=
  ⟨rfl, rfl⟩

/-- C1 amended: the extractor first normalizes line endings (CRLF and bare
CR become LF), selects the last line containing `]`, decodes it as a JSON
value, pads a one-element value with null, unpacks a two-element value by
Python sequence unpacking into `(status, value)`, returns `value` when
`status` equals `"ok"` and raises `ProgramError` carrying `value`
otherwise. -/
theorem extract_result_matches_amended_description :
    ∀ output : Str, extract_result output = extract_result_amended output := by
  intro output
  unfold extract_result extract_result_amended lastBracketLine
  rw [normalizeNewlines_eq_spec]
  rw [getLast?_filter_eq_find?_reverse]
  cases hline : (pySplitlines (normalizeSpec output)).reverse.find?
      (fun line => line.contains ']') with
  | none => rfl
  | some line => exact resultFromLine_eq_amended line
